import Mathlib

/-!
Shallow embedding of the interview-session engine of the Candidate-Experience
backend (src/backend/routes/interview.py together with src/backend/security,
src/backend/schemas.py).  The embedding is per session: every database query in
the source filters on one session id, so a database state is modelled as the
slice of the collections belonging to the session under study.  The database is
modelled as connected (the `if db is None` guards of the source correspond to
the store being unavailable, an infrastructure failure outside the modelled
behaviour).  The SHA-256 primitive of the Python standard library is an opaque
external function; every definition below is parameterised by a hash function
`H : String -> String` standing for the hex digest of SHA-256 over the UTF-8
bytes of its input.  JSON numeric payloads are embedded as integers; the escape
rules of the serializer are modelled for the ASCII fragment, which covers every
payload the claims exercise.
-/

/-- A JSON value as carried in the `details` field of an anti-cheat event and
in question metadata.  Numbers are embedded as integers. -/
inductive Json where
  | null : Json
  | bool (b : Bool) : Json
  | num (n : Int) : Json
  | str (s : String) : Json
  | arr (xs : List Json) : Json
  | obj (fields : List (String × Json)) : Json

/-- Escape of one character inside a JSON string literal, as `json.dumps`
performs it for the ASCII fragment. -/
def escChar (c : Char) : String :=
  if c = '\\' then "\\\\" else if c = '"' then "\\\"" else String.singleton c

/-- Escape of a JSON string body. -/
def jsonEscape (s : String) : String :=
  String.join (s.toList.map escChar)

/-- Stable insertion of an object field into a key-sorted field list,
ascending by key. -/
def insertField (x : String × Json) : List (String × Json) → List (String × Json)
  | [] => [x]
  | y :: ys => if y.1 < x.1 then y :: insertField x ys else x :: y :: ys

/-- Sort object fields by key, ascending, as `sort_keys=True` does. -/
def sortFields : List (String × Json) → List (String × Json)
  | [] => []
  | x :: xs => insertField x (sortFields xs)

mutual

/-- Recursively sort the keys of every object in a JSON value, as
`json.dumps(..., sort_keys=True)` serializes them. -/
def sortJson : Json → Json
  | .null => .null
  | .bool b => .bool b
  | .num n => .num n
  | .str s => .str s
  | .arr xs => .arr (sortJsonList xs)
  | .obj fs => .obj (sortFields (sortJsonFields fs))

def sortJsonList : List Json → List Json
  | [] => []
  | x :: xs => sortJson x :: sortJsonList xs

def sortJsonFields : List (String × Json) → List (String × Json)
  | [] => []
  | f :: fs => (f.1, sortJson f.2) :: sortJsonFields fs

end

mutual

/-- Serialization of a (key-sorted) JSON value with the default separators of
`json.dumps`: a comma-space between items and a colon-space after keys. -/
def dumpsVal : Json → String
  | .null => "null"
  | .bool true => "true"
  | .bool false => "false"
  | .num n => toString n
  | .str s => "\"" ++ jsonEscape s ++ "\""
  | .arr xs => "[" ++ dumpsList xs ++ "]"
  | .obj fs => "\x7b" ++ dumpsFields fs ++ "\x7d"

def dumpsList : List Json → String
  | [] => ""
  | [x] => dumpsVal x
  | x :: y :: xs => dumpsVal x ++ ", " ++ dumpsList (y :: xs)

def dumpsFields : List (String × Json) → String
  | [] => ""
  | [f] => "\"" ++ jsonEscape f.1 ++ "\": " ++ dumpsVal f.2
  | f :: g :: fs => "\"" ++ jsonEscape f.1 ++ "\": " ++ dumpsVal f.2 ++ ", " ++ dumpsFields (g :: fs)

end

/-- Model of `json.dumps(v, sort_keys=True)` of the source: keys sorted lexicographically
at every level, default separators. -/
def dumps (v : Json) : String :=
  dumpsVal (sortJson v)

/-- An HTTP error as raised through `HTTPException(status_code, detail)`. -/
structure Err where
  code : Nat
  detail : String
deriving DecidableEq, Repr

/-- The request shape of one anti-cheat event (schemas.AntiCheatEvent). -/
structure ACEventIn where
  sessionId : String
  seq : Int
  type : String
  details : Json
  ts : String
  prevHash : String

/-- A persisted anti-cheat event: the request fields enriched with the
server-computed hash (the opaque `_id` and `createdAt` fields are omitted). -/
structure StoredEvent extends ACEventIn where
  hash : String

/-- The byte string hashed for one event: sessionId, seq, type, ts, the
canonical JSON of details, and the running previous hash, concatenated in the
order of the `digest.update` calls of the source. -/
def hashInput (ev : ACEventIn) (prior : String) : String :=
  ev.sessionId ++ toString ev.seq ++ ev.type ++ ev.ts ++ dumps ev.details ++ prior

/-- Stable insertion by `seq`, ascending. -/
def insertBySeq (x : ACEventIn) : List ACEventIn → List ACEventIn
  | [] => [x]
  | y :: ys => if y.seq < x.seq then y :: insertBySeq x ys else x :: y :: ys

/-- Model of `sorted(events, key=lambda x: x["seq"])`: a stable ascending sort. -/
def sortBySeq : List ACEventIn → List ACEventIn
  | [] => []
  | x :: xs => insertBySeq x (sortBySeq xs)

/-- The stored tail of the event log: the (seq, hash) of the highest-seq event,
`(0, "")` when the session has no events, as loaded by
`find(...).sort("seq", -1).limit(1)`. -/
def tailPair (events : List StoredEvent) : Int × String :=
  events.foldl (fun acc e => if acc.1 ≤ e.seq then (e.seq, e.hash) else acc) (0, "")

/-- The chain-verification loop of the source: walk the (sorted) batch keeping
a running previous hash; reject on the first `prevHash` mismatch, otherwise
enrich each event with its computed hash. -/
def chainExtend (H : String → String) : String → List ACEventIn → Except Err (List StoredEvent)
  | _, [] => .ok []
  | prior, ev :: rest =>
    if ev.prevHash ≠ prior then .error ⟨400, "event_chain_broken"⟩
    else
      match chainExtend H (H (hashInput ev prior)) rest with
      | .error e => .error e
      | .ok stored => .ok (⟨ev, H (hashInput ev prior)⟩ :: stored)

/-- Boolean version of the chain test: does every event of the batch carry the
running previous hash? -/
def chainCheck (H : String → String) : String → List ACEventIn → Bool
  | _, [] => true
  | prior, ev :: rest => ev.prevHash == prior && chainCheck H (H (hashInput ev prior)) rest

/-- The batch-ingestion core shared verbatim between `submit_precheck`
(interview.py lines 76-112) and `anti_cheat_emit` (lines 592-630): sort by seq,
require the smallest seq to exceed the stored tail seq, then verify and extend
the hash chain. -/
def ingest (H : String → String) (lastSeq : Int) (lastHash : String)
    (events : List ACEventIn) : Except Err (List StoredEvent) :=
  match sortBySeq events with
  | [] => .ok []
  | first :: rest =>
    if first.seq ≤ lastSeq then .error ⟨400, "event_seq_replay_or_out_of_order"⟩
    else chainExtend H lastHash (first :: rest)

/-- The chain invariant the claims state for stored events: the first event of
the batch carries the prior tail hash as its `prevHash`, the hash of every event is
the digest of its concatenated fields and running previous hash, and every
subsequent `prevHash` is the hash of the event before it. -/
def chainOk (H : String → String) : String → List StoredEvent → Prop
  | _, [] => True
  | prior, e :: rest =>
    e.prevHash = prior ∧ e.hash = H (hashInput e.toACEventIn prior) ∧ chainOk H e.hash rest

/-- A Strike document as built by `anti_cheat_emit` from `_eval_strike` output:
the classified fields plus the path session id (opaque `_id` and `createdAt`
omitted). -/
structure Strike where
  sessionId : String
  type : String
  severity : String
  ts : String
  details : Json

/-- The classified part of a strike returned by `_eval_strike`. -/
structure StrikeInfo where
  type : String
  severity : String
  ts : String
  details : Json

/-- A Question document (fields used by the modelled handlers). -/
structure QuestionDoc where
  id : String
  number : Nat
  qtype : String
  text : String
  metadata : Json

/-- An Answer document: the submitted payload plus the best-effort
`immediateFeedback` field (the analyzer result is opaque, carried as a
string). -/
structure AnswerDoc where
  questionId : String
  answerType : String
  responseText : Option String
  immediateFeedback : Option String

/-- A message broadcast to the room of the session through `broker.emit`. -/
inductive Msg where
  | questionCreated (questionId : String) (qtype : String) (number : Nat) : Msg
  | feedbackCreated (questionId : String) : Msg
  | strikeCreated (strike : Strike) : Msg
  | sessionPaused (reason : String) : Msg
  | sessionEnded (reason : String) : Msg

/-- The session document fields read and written by the modelled handlers.
`sealedAtSet` records whether the `sealedAt` timestamp has been written. -/
structure SessionDoc where
  state : String
  questionCount : Nat
  askedCount : Nat
  awaitingAnswer : Bool
  lastAskedAt : Option Int
  policyCounters : List (String × Nat)
  pauseReason : Option String
  endCode : Option String
  sealedAtSet : Bool

/-- The per-session slice of the store: the session document and the documents
of the collections that reference it.  `summaries` counts the Summary documents
of the session (their analysis content is produced by the opaque AI layer). -/
structure DB where
  session : SessionDoc
  questions : List QuestionDoc
  answers : List AnswerDoc
  events : List StoredEvent
  strikes : List Strike
  summaries : Nat
  broadcasts : List Msg

/-- Read of one policy counter, missing keys counting as 0. -/
def pcGet (pc : List (String × Nat)) (k : String) : Nat :=
  match pc.find? (fun p => p.1 == k) with
  | some p => p.2
  | none => 0

/-- Atomic increment of one policy counter. -/
def pcInc (pc : List (String × Nat)) (k : String) : List (String × Nat) :=
  match pc with
  | [] => [(k, 1)]
  | p :: rest => if p.1 == k then (p.1, p.2 + 1) :: rest else p :: pcInc rest k

/-- The `$inc` of the per-type strike counters. -/
def incAll (pc : List (String × Nat)) (types : List String) : List (String × Nat) :=
  types.foldl pcInc pc

/-- Integer-string parsing, the `float(...)` of the source restricted to the
integer fragment of the embedding: surrounding whitespace stripped, optional
sign, decimal digits. -/
def digitsVal (cs : List Char) : Option Nat :=
  if cs.isEmpty then none
  else if cs.all Char.isDigit then
    some (cs.foldl (fun a c => a * 10 + (c.toNat - 48)) 0)
  else none

/-- Python `float(s)` on an integer-valued string. -/
def parseIntString (s : String) : Option Int :=
  match s.trim.toList with
  | '-' :: cs => (digitsVal cs).map (fun n => -(n : Int))
  | '+' :: cs => (digitsVal cs).map Int.ofNat
  | cs => (digitsVal cs).map Int.ofNat

/-- Python `float(v)` on a JSON value: numbers pass through, booleans coerce to
0 or 1, integer-valued strings parse; everything else raises, which the source
swallows (`none` here). -/
def pyFloat : Json → Option Int
  | .num n => some n
  | .bool b => some (if b then 1 else 0)
  | .str s => parseIntString s
  | _ => none

/-- The duration lookup of the FACE_MISSING branch:
`float(event.get("details", {}).get("duration", 0))` with every exception
swallowed, leaving the pre-assigned 0. -/
def faceMissingDuration (details : Json) : Int :=
  match details with
  | .obj fs =>
    match (fs.find? (fun p => p.1 == "duration")).map (fun p => p.2) with
    | some v => (pyFloat v).getD 0
    | none => 0
  | _ => 0

/-- Model of `_eval_strike` (interview.py lines 552-570): classify an event into a
strike, or nothing for unlisted types. -/
def _eval_strike (event : ACEventIn) : Option StrikeInfo :=
  if event.type == "SCREENSHOT_ATTEMPT" then
    some ⟨event.type, "red", event.ts, event.details⟩
  else if event.type == "FS_EXIT" then
    some ⟨event.type, "yellow", event.ts, event.details⟩
  else if event.type == "TAB_SWITCH" then
    some ⟨event.type, "yellow", event.ts, event.details⟩
  else if event.type == "FACE_MISSING" then
    some ⟨event.type, if faceMissingDuration event.details ≤ 2 then "yellow" else "red",
          event.ts, event.details⟩
  else none

/-- The auto-seal of `anti_cheat_emit` (interview.py lines 660-689): insert a
Summary, set the session to Ended with sealedAt and endCode, broadcast
SESSION_ENDED with the reason. -/
def sealSession (db : DB) (reason : String) : DB :=
  { db with
    summaries := db.summaries + 1
    session := { db.session with
                 state := "Ended"
                 sealedAtSet := true
                 endCode := some reason }
    broadcasts := db.broadcasts ++ [Msg.sessionEnded reason] }

/-- The auto-pause of `anti_cheat_emit` (interview.py lines 657-659). -/
def pauseSession (db : DB) : DB :=
  { db with
    session := { db.session with state := "Paused", pauseReason := some "fs_exit" }
    broadcasts := db.broadcasts ++ [Msg.sessionPaused "fs_exit"] }

/-- Apply the scheduled auto-end reason, if any. -/
def applyAutoEnd (db : DB) : Option String → DB
  | none => db
  | some reason => sealSession db reason

/-- The strike block of `anti_cheat_emit` (interview.py lines 632-689): insert
the strikes, broadcast STRIKE_CREATED for each, increment the per-type policy
counters, then evaluate the policy: a red SCREENSHOT_ATTEMPT strike schedules
an auto-end with reason screenshot_attempt; an FS_EXIT counter of at least 2 on
an Active session auto-pauses; an FS_EXIT counter of at least 3 schedules an
auto-end with reason fs_exit_excess unless a reason is already set.  Auto-end
inserts a Summary, sets the session to Ended with sealedAt and endCode, and
broadcasts SESSION_ENDED with the reason.  No other event type has a
threshold. -/
def applyStrikePolicy (db : DB) (strikes : List Strike) : DB :=
  if strikes.isEmpty then db
  else
    let db2 : DB := { db with
      strikes := db.strikes ++ strikes
      broadcasts := db.broadcasts ++ strikes.map Msg.strikeCreated }
    let pc := incAll db2.session.policyCounters (strikes.map (fun s => s.type))
    let autoEnd0 : Option String :=
      if strikes.any (fun s => s.type == "SCREENSHOT_ATTEMPT" && s.severity == "red")
      then some "screenshot_attempt" else none
    let db3 : DB := { db2 with session := { db2.session with policyCounters := pc } }
    let db4 : DB :=
      if 2 ≤ pcGet pc "FS_EXIT" ∧ db3.session.state = "Active" then pauseSession db3
      else db3
    applyAutoEnd db4
      (if 3 ≤ pcGet pc "FS_EXIT" then some (autoEnd0.getD "fs_exit_excess") else autoEnd0)

/-- Model of `anti_cheat_emit` (interview.py lines 583-694), after ACET auth: load the
tail, ingest the batch through the shared chain logic, append the enriched
events, classify strikes and apply the policy, and answer with the new tail.
An empty batch answers with the stored tail. -/
def anti_cheat_emit (H : String → String) (sid : String) (db : DB)
    (events : List ACEventIn) : DB × Except Err (Int × String) :=
  match events with
  | [] => (db, .ok (tailPair db.events))
  | e0 :: erest =>
    match ingest H (tailPair db.events).1 (tailPair db.events).2 (e0 :: erest) with
    | .error e => (db, .error e)
    | .ok enriched =>
      let strikes := (sortBySeq (e0 :: erest)).filterMap fun ev =>
        (_eval_strike ev).map fun s => Strike.mk sid s.type s.severity s.ts s.details
      let db1 : DB := { db with events := db.events ++ enriched }
      let db2 := applyStrikePolicy db1 strikes
      match enriched.getLast? with
      | some elast => (db2, .ok (elast.seq, elast.hash))
      | none => (db2, .ok (tailPair db.events))

/-- Model of `submit_precheck` (interview.py lines 66-125), after ACET auth: require the
session in PendingPrecheck or Paused, ingest the events of the payload through
the shared chain logic, then set the session Ready.  `warning` is reported when
the network check carries status warning. -/
def submit_precheck (H : String → String) (db : DB) (events : List ACEventIn)
    (networkWarning : Bool) : DB × Except Err (String × Bool) :=
  if db.session.state ≠ "PendingPrecheck" ∧ db.session.state ≠ "Paused" then
    (db, .error ⟨409, "invalid_state"⟩)
  else
    match events with
    | [] =>
      ({ db with session := { db.session with state := "Ready" } },
       .ok (if networkWarning then "warning" else "pass", true))
    | e0 :: erest =>
      match ingest H (tailPair db.events).1 (tailPair db.events).2 (e0 :: erest) with
      | .error e => (db, .error e)
      | .ok enriched =>
        ({ db with
           events := db.events ++ enriched
           session := { db.session with state := "Ready" } },
         .ok (if networkWarning then "warning" else "pass", true))

/-- Model of `finalize` (interview.py lines 351-398), after IST auth.  The source checks
only that the session exists: there is no state precondition.  It always builds
a fresh Summary from the questions and latest answers (AI content opaque here),
inserts it, and sets the session to Completed with sealedAt. -/
def finalize (db : DB) (newSummaryId : String) : DB × Except Err (String × String) :=
  ({ db with
     summaries := db.summaries + 1
     session := { db.session with state := "Completed", sealedAtSet := true } },
   .ok (newSummaryId, "Completed"))

/-- The claims of a decoded bearer token that the modelled handlers read.
Signature and expiry verification are performed by the opaque JWT library; the
modelled `decode_jwt` validates the audience, the modelled `require_scope` the
scope set. -/
structure TokenClaims where
  aud : String
  scope : List String
  sessionId : String

/-- Model of `require_scope` (security/jwt.py lines 198-205): the capability string must
be present verbatim in the scope set of the token. -/
def require_scope (claims : TokenClaims) (required : String) : Except Err Unit :=
  if required ∈ claims.scope then .ok () else .error ⟨403, "insufficient_scope"⟩

/-- Model of `auth_ai_proxy` (security/deps.py lines 24-27): decode against audience
ai-proxy, then require the global scope ai:ask.  The sessionId claim is
returned but nothing here compares it with anything. -/
def auth_ai_proxy (claims : TokenClaims) : Except Err TokenClaims :=
  if claims.aud ≠ "ai-proxy" then .error ⟨401, "invalid_token"⟩
  else
    match require_scope claims "ai:ask" with
    | .error e => .error e
    | .ok _ => .ok claims

/-- The generator output (ai.proxy.generate_question), opaque to the engine. -/
structure GenQuestion where
  qtype : String
  text : String
  metadata : Json

/-- The NextQuestionResponse payload. -/
structure NextQuestionResp where
  questionId : String
  questionNumber : Nat
  totalQuestions : Nat
  qtype : String
  text : String
  metadata : Json

/-- The body of the try block at interview.py lines 186-189: parse lastAskedAt
and raise 429 rate_limited when less than 5 seconds have passed.  Timestamps
are modelled as seconds. -/
def rate_limit_block (lastAskedAt : Option Int) (now : Int) : Except Err Unit :=
  match lastAskedAt with
  | none => .ok ()
  | some t => if now - t < 5 then .error ⟨429, "rate_limited"⟩ else .ok ()

/-- The tail of `next_question` after the rate-limit block: quota check, insert
the question, set awaitingAnswer with lastAskedAt, bump askedCount, broadcast
QUESTION_CREATED. -/
def next_question_core (db : DB) (now : Int) (gen : GenQuestion) (qid : String) :
    DB × Except Err NextQuestionResp :=
  let total := db.session.questionCount
  let asked := db.session.askedCount
  if total ≤ asked then (db, .error ⟨400, "no_questions_remaining"⟩)
  else
    let q : QuestionDoc := ⟨qid, asked + 1, gen.qtype, gen.text, gen.metadata⟩
    ({ db with
       questions := db.questions ++ [q]
       session := { db.session with
                    awaitingAnswer := true
                    lastAskedAt := some now
                    askedCount := asked + 1 }
       broadcasts := db.broadcasts ++ [Msg.questionCreated qid gen.qtype (asked + 1)] },
     .ok ⟨qid, asked + 1, total, gen.qtype, gen.text, gen.metadata⟩)

/-- Model of `next_question` (interview.py lines 172-227): AIPT auth, state and
awaitingAnswer checks, then the rate-limit block.  In the source the 429 raised
inside the block is an HTTPException, a subclass of Exception, so the enclosing
`except Exception: pass` swallows it: both outcomes of the block continue into
the same tail.  The path session id is never compared with the sessionId claim
of the token. -/
def next_question (claims : TokenClaims) (db : DB) (now : Int) (gen : GenQuestion)
    (qid : String) : DB × Except Err NextQuestionResp :=
  match auth_ai_proxy claims with
  | .error e => (db, .error e)
  | .ok _ =>
    if db.session.state ≠ "Active" then (db, .error ⟨409, "invalid_state"⟩)
    else if db.session.awaitingAnswer then (db, .error ⟨409, "answer_required"⟩)
    else
      match rate_limit_block db.session.lastAskedAt now with
      | .ok _ => next_question_core db now gen qid
      | .error _ => next_question_core db now gen qid

/-- The SubmitAnswerRequest fields the modelled handler stores. -/
structure SubmitAnswerReq where
  questionId : String
  answerType : String
  responseText : Option String

/-- The response of `submit_answer`. -/
structure SubmitAnswerResp where
  status : String
  immediateFeedback : Option String

/-- Model of `submit_answer` (interview.py lines 230-260), after IST auth: require state
Active, insert the answer, clear awaitingAnswer.  Then, best effort: look up
the referenced question; when it exists, run the analyzer and store the result
as immediateFeedback, broadcasting FEEDBACK_CREATED.  Analyzer failures are
swallowed and leave the feedback null.  The insert followed by the conditional
immediateFeedback update of the same document is modelled as one append of the
final answer document. -/
def submit_answer (db : DB) (req : SubmitAnswerReq)
    (analyze : QuestionDoc → Option String) : DB × Except Err SubmitAnswerResp :=
  if db.session.state ≠ "Active" then (db, .error ⟨409, "invalid_state"⟩)
  else
    let ans : AnswerDoc := ⟨req.questionId, req.answerType, req.responseText, none⟩
    match db.questions.find? (fun q => q.id == req.questionId) with
    | none =>
      ({ db with
         answers := db.answers ++ [ans]
         session := { db.session with awaitingAnswer := false } },
       .ok ⟨"submitted", none⟩)
    | some qdoc =>
      match analyze qdoc with
      | none =>
        ({ db with
           answers := db.answers ++ [ans]
           session := { db.session with awaitingAnswer := false } },
         .ok ⟨"submitted", none⟩)
      | some fb =>
        ({ db with
           answers := db.answers ++ [{ ans with immediateFeedback := some fb }]
           session := { db.session with awaitingAnswer := false }
           broadcasts := db.broadcasts ++ [Msg.feedbackCreated req.questionId] },
         .ok ⟨"submitted", some fb⟩)

/-- One code test case, input and expected value opaque JSON. -/
structure TestCase where
  input : Json
  expected : Json

/-- The outcome of executing one test case in the sandboxed worker process.
The worker itself (exec with restricted builtins, 1 second wall clock) is the
opaque execution environment. -/
structure TestResult where
  pass : Bool
  error : Option String

/-- The banned-substring list of `code_eval` (interview.py line 314). -/
def bannedTokens : List String :=
  ["import ", "__import__", "open(", "exec(", "eval(", "os.", "sys.", "subprocess", "socket", "thread", "fork", "spawn"]

/-- Python `str.lower()` on the character-wise fragment. -/
def strLower (s : String) : String := ⟨s.data.map Char.toLower⟩

/-- Python substring containment `t in s` over character lists. -/
def containsSub (t : List Char) : List Char → Bool
  | [] => t.isEmpty
  | c :: rest => t.isPrefixOf (c :: rest) || containsSub t rest

/-- The pre-screen of `code_eval`: lower the code, reject when any banned token
occurs in it. -/
def prescreen (code : String) : Except Err Unit :=
  match bannedTokens.find? (fun t => containsSub t.toList (strLower code).toList) with
  | some _ => .error ⟨400, "disallowed_code"⟩
  | none => .ok ()

/-- The aggregate response of `code_eval`. -/
structure CodeEvalResp where
  results : List TestResult
  passed : Nat
  total : Nat

/-- Model of `code_eval` (interview.py lines 305-348), after IST auth: pre-screen the
code before anything runs; on pass, run every test in its own worker and count
the passes. -/
def code_eval (runTest : TestCase → TestResult) (code : String) (_fname : String)
    (tests : List TestCase) : Except Err CodeEvalResp :=
  match prescreen code with
  | .error e => .error e
  | .ok _ =>
    let results := tests.map runTest
    .ok ⟨results, (results.filter (fun r => r.pass)).length, tests.length⟩

/-- A concrete stand-in hash function for evaluating the model on examples. -/
def exH (s : String) : String := "#" ++ s

/-- An Active session with a one-question quota and no history. -/
def sessActive : SessionDoc := ⟨"Active", 1, 0, false, none, [], none, none, false⟩

/-- An empty store slice for an Active session. -/
def dbActive : DB := ⟨sessActive, [], [], [], [], 0, []⟩

/-- A neutral event type that yields no strike. -/
def hb1 : ACEventIn := ⟨"S", 1, "HEARTBEAT", Json.obj [], "T1", ""⟩

/-- A stored event forming a tail of seq 1. -/
def seTail : StoredEvent := ⟨⟨"S", 1, "HEARTBEAT", Json.obj [], "T1", ""⟩, "h1"⟩

/-- A store slice whose event log already holds `seTail`. -/
def dbWithTail : DB := ⟨sessActive, [], [], [seTail], [], 0, []⟩

/-- An empty store slice for a session in state PendingPrecheck. -/
def dbPending : DB :=
  ⟨⟨"PendingPrecheck", 1, 0, false, none, [], none, none, false⟩, [], [], [], [], 0, []⟩

/-- A screenshot-attempt event. -/
def shot1 : ACEventIn := ⟨"S", 1, "SCREENSHOT_ATTEMPT", Json.obj [], "T1", ""⟩

/-- FACE_MISSING details with a 5 second duration. -/
def fmDetails : Json := Json.obj [("duration", Json.num 5)]

/-- Three correctly chained FACE_MISSING events with duration above 2s. -/
def fm1 : ACEventIn := ⟨"S", 1, "FACE_MISSING", fmDetails, "T1", ""⟩

def fm2 : ACEventIn := ⟨"S", 2, "FACE_MISSING", fmDetails, "T2", exH (hashInput fm1 "")⟩

def fm3 : ACEventIn := ⟨"S", 3, "FACE_MISSING", fmDetails, "T3", exH (hashInput fm2 fm2.prevHash)⟩

/-- An AIPT decoded for session A: audience ai-proxy, scope ai:ask, sessionId A. -/
def aiptForA : TokenClaims := ⟨"ai-proxy", ["ai:ask"], "A"⟩

/-- An AIPT decoded for session S. -/
def aiptForS : TokenClaims := ⟨"ai-proxy", ["ai:ask"], "S"⟩

/-- The store slice of a session B in state Active with a two-question quota. -/
def dbSessionB : DB := ⟨⟨"Active", 2, 0, false, none, [], none, none, false⟩, [], [], [], [], 0, []⟩

/-- A generator output. -/
def genQ : GenQuestion := ⟨"behavioral", "Describe a conflict you resolved.", Json.null⟩

/-- An Active session asked 2 seconds ago (lastAskedAt 98, now 100). -/
def dbRecentAsk : DB := ⟨⟨"Active", 1, 0, false, some 98, [], none, none, false⟩, [], [], [], [], 0, []⟩

/-- A sealed session: state Ended with endCode and sealedAt set, one Summary. -/
def dbEnded : DB :=
  ⟨⟨"Ended", 1, 1, false, some 50, [], none, some "screenshot_attempt", true⟩, [], [], [], [], 1, []⟩

/-- A question document. -/
def qDoc1 : QuestionDoc := ⟨"q1", 1, "behavioral", "Tell me about yourself.", Json.null⟩

/-- An Active session store holding one question with id q1. -/
def dbWithQ : DB := ⟨⟨"Active", 1, 1, true, some 10, [], none, none, false⟩, [qDoc1], [], [], [], 0, []⟩

/-- An answer submission referencing a question id that does not exist. -/
def reqUnknownQ : SubmitAnswerReq := ⟨"q9", "text", some "My answer."⟩

lemma mem_insertBySeq {e x : ACEventIn} {l : List ACEventIn} :
    e ∈ insertBySeq x l ↔ e = x ∨ e ∈ l := by
  induction l with
  | nil => simp [insertBySeq]
  | cons y ys ih =>
    simp only [insertBySeq]
    split <;> simp only [List.mem_cons, ih] <;> tauto

lemma mem_sortBySeq {e : ACEventIn} {l : List ACEventIn} :
    e ∈ sortBySeq l ↔ e ∈ l := by
  induction l with
  | nil => simp [sortBySeq]
  | cons x xs ih => simp [sortBySeq, mem_insertBySeq, ih]

lemma sortBySeq_eq_nil {l : List ACEventIn} (h : sortBySeq l = []) : l = [] := by
  cases l with
  | nil => rfl
  | cons x xs =>
    exfalso
    have hx : x ∈ sortBySeq (x :: xs) := mem_sortBySeq.mpr (List.mem_cons_self x xs)
    rw [h] at hx
    exact List.not_mem_nil x hx

lemma chainExtend_ok_chainOk {H : String → String} {prior : String}
    {l : List ACEventIn} {stored : List StoredEvent}
    (h : chainExtend H prior l = .ok stored) : chainOk H prior stored := by
  induction l generalizing prior stored with
  | nil =>
    simp only [chainExtend] at h
    cases h
    trivial
  | cons ev rest ih =>
    simp only [chainExtend] at h
    split at h
    · exact absurd h (by simp)
    · rename_i hprev
      cases hrec : chainExtend H (H (hashInput ev prior)) rest with
      | error e => rw [hrec] at h; exact absurd h (by simp)
      | ok st =>
        rw [hrec] at h
        cases h
        refine ⟨?_, rfl, ih hrec⟩
        simpa using hprev

lemma chainExtend_ok_proj {H : String → String} {prior : String}
    {l : List ACEventIn} {stored : List StoredEvent}
    (h : chainExtend H prior l = .ok stored) :
    stored.map (fun e => e.toACEventIn) = l := by
  induction l generalizing prior stored with
  | nil =>
    simp only [chainExtend] at h
    cases h
    rfl
  | cons ev rest ih =>
    simp only [chainExtend] at h
    split at h
    · exact absurd h (by simp)
    · cases hrec : chainExtend H (H (hashInput ev prior)) rest with
      | error e => rw [hrec] at h; exact absurd h (by simp)
      | ok st =>
        rw [hrec] at h
        cases h
        simp [ih hrec]

lemma chainExtend_error_of_chainCheck_false {H : String → String} {prior : String}
    {l : List ACEventIn} (h : chainCheck H prior l = false) :
    chainExtend H prior l = .error ⟨400, "event_chain_broken"⟩ := by
  induction l generalizing prior with
  | nil => simp [chainCheck] at h
  | cons ev rest ih =>
    simp only [chainCheck, Bool.and_eq_false_iff] at h
    simp only [chainExtend]
    rcases h with h | h
    · rw [if_pos]
      simp only [beq_eq_false_iff_ne, ne_eq] at h
      exact h
    · by_cases hprev : ev.prevHash = prior
      · rw [if_neg (by simpa using hprev), ih h]
      · rw [if_pos hprev]

lemma tailPair_foldl_mono (l : List StoredEvent) (acc : Int × String) :
    acc.1 ≤ (l.foldl (fun a e => if a.1 ≤ e.seq then (e.seq, e.hash) else a) acc).1 := by
  induction l generalizing acc with
  | nil => simp
  | cons e rest ih =>
    simp only [List.foldl_cons]
    refine le_trans ?_ (ih _)
    split
    · assumption
    · exact le_refl _

lemma tailPair_mem_le {e : StoredEvent} {l : List StoredEvent} (acc : Int × String)
    (h : e ∈ l) :
    e.seq ≤ (l.foldl (fun a x => if a.1 ≤ x.seq then (x.seq, x.hash) else a) acc).1 := by
  induction l generalizing acc with
  | nil => cases h
  | cons x rest ih =>
    rcases List.mem_cons.mp h with rfl | hmem
    · simp only [List.foldl_cons]
      refine le_trans ?_ (tailPair_foldl_mono rest _)
      split
      · exact le_refl _
      · omega
    · exact ih _ hmem

lemma tailPair_ge_of_mem {e : StoredEvent} {l : List StoredEvent} (h : e ∈ l) :
    e.seq ≤ (tailPair l).1 :=
  tailPair_mem_le (0, "") h

lemma pcGet_pcInc (pc : List (String × Nat)) (k k2 : String) :
    pcGet (pcInc pc k) k2 = pcGet pc k2 + (if k = k2 then 1 else 0) := by
  induction pc with
  | nil =>
    by_cases h : k = k2
    · subst h
      simp [pcInc, pcGet, List.find?]
    · simp only [pcInc, pcGet, List.find?,
        show (k == k2) = false by simpa using h, if_neg h]
  | cons p rest ih =>
    by_cases hpk : p.1 = k
    · subst hpk
      by_cases hk2 : p.1 = k2
      · subst hk2
        simp [pcInc, pcGet, List.find?]
      · simp only [pcInc, beq_self_eq_true, if_true, pcGet, List.find?,
          show (p.1 == k2) = false by simpa using hk2, if_neg hk2]
        omega
    · have hne : (p.1 == k) = false := by simpa using hpk
      by_cases hp2 : p.1 = k2
      · have hkk2 : ¬k = k2 := fun hh => hpk (by rw [hp2, hh])
        have h1 : pcInc (p :: rest) k = p :: pcInc rest k := by
          simp [pcInc, hne]
        have h2 : (p.1 == k2) = true := by simpa using hp2
        rw [h1]
        simp [pcGet, List.find?, h2, hkk2]
      · have hne2 : (p.1 == k2) = false := by simpa using hp2
        simp only [pcInc, hne, if_false, Bool.false_eq_true, pcGet, List.find?, hne2]
        exact ih

lemma pcGet_incAll (ts : List String) (pc : List (String × Nat)) (k : String) :
    pcGet (incAll pc ts) k = pcGet pc k + ts.count k := by
  induction ts generalizing pc with
  | nil => simp [incAll]
  | cons t rest ih =>
    have hcnt : (t :: rest).count k = rest.count k + (if t = k then 1 else 0) := by
      rcases eq_or_ne t k with h | h <;> simp [List.count_cons, h]
    simp only [incAll, List.foldl_cons] at *
    rw [ih (pcInc pc t), pcGet_pcInc, hcnt]
    omega


lemma sealSession_events (db : DB) (r : String) : (sealSession db r).events = db.events := rfl

lemma pauseSession_events (db : DB) : (pauseSession db).events = db.events := rfl

lemma applyAutoEnd_events (db : DB) (o : Option String) :
    (applyAutoEnd db o).events = db.events := by
  cases o <;> rfl

lemma applyStrikePolicy_events (db : DB) (strikes : List Strike) :
    (applyStrikePolicy db strikes).events = db.events := by
  unfold applyStrikePolicy
  split
  · rfl
  · rw [applyAutoEnd_events]
    split <;> rfl

lemma applyStrikePolicy_screenshot (db : DB) (strikes : List Strike) (s0 : Strike)
    (hmem : s0 ∈ strikes) (ht : s0.type = "SCREENSHOT_ATTEMPT") (hs : s0.severity = "red") :
    (applyStrikePolicy db strikes).session.state = "Ended" ∧
    (applyStrikePolicy db strikes).session.endCode = some "screenshot_attempt" ∧
    (applyStrikePolicy db strikes).session.sealedAtSet = true ∧
    (applyStrikePolicy db strikes).summaries = db.summaries + 1 ∧
    Msg.sessionEnded "screenshot_attempt" ∈ (applyStrikePolicy db strikes).broadcasts ∧
    s0 ∈ (applyStrikePolicy db strikes).strikes := by
  have hne : strikes.isEmpty = false := by
    cases strikes with
    | nil => cases hmem
    | cons a l => rfl
  have hany : strikes.any (fun s => s.type == "SCREENSHOT_ATTEMPT" && s.severity == "red")
      = true := by
    refine List.any_eq_true.mpr ⟨s0, hmem, ?_⟩
    rw [ht, hs]
    rfl
  unfold applyStrikePolicy
  simp only [hne, Bool.false_eq_true, if_false, hany, if_true, Option.getD_some, ite_self,
    applyAutoEnd]
  refine ⟨rfl, rfl, rfl, ?_, ?_, ?_⟩
  · simp only [sealSession]
    split <;> rfl
  · simp only [sealSession]
    simp
  · simp only [sealSession]
    split <;> simp [pauseSession, List.mem_append, hmem]

lemma applyStrikePolicy_no_trigger (db : DB) (strikes : List Strike)
    (hall : ∀ st ∈ strikes, st.type = "FACE_MISSING")
    (hfs : pcGet db.session.policyCounters "FS_EXIT" < 2) :
    (applyStrikePolicy db strikes).session.state = db.session.state ∧
    (applyStrikePolicy db strikes).session.endCode = db.session.endCode ∧
    (applyStrikePolicy db strikes).summaries = db.summaries ∧
    ∀ st ∈ strikes, st ∈ (applyStrikePolicy db strikes).strikes := by
  by_cases hne : strikes.isEmpty
  · have hnil : strikes = [] := List.isEmpty_iff.mp hne
    subst hnil
    unfold applyStrikePolicy
    exact ⟨rfl, rfl, rfl, fun st hst => absurd hst (List.not_mem_nil st)⟩
  · have hne2 : strikes.isEmpty = false := Bool.eq_false_iff.mpr hne
    have hany : strikes.any (fun s => s.type == "SCREENSHOT_ATTEMPT" && s.severity == "red")
        = false := by
      rw [List.any_eq_false]
      intro s hm
      have hty := hall s hm
      simp [hty]
    have hcnt : pcGet (incAll db.session.policyCounters (strikes.map (fun s => s.type)))
        "FS_EXIT" = pcGet db.session.policyCounters "FS_EXIT" := by
      rw [pcGet_incAll]
      have hzero : (strikes.map (fun s => s.type)).count "FS_EXIT" = 0 := by
        rw [List.count_eq_zero]
        intro hmem2
        obtain ⟨s, hm, hty⟩ := List.mem_map.mp hmem2
        rw [hall s hm] at hty
        exact absurd hty (by decide)
      rw [hzero]
      omega
    have h3 : ¬ 3 ≤ pcGet (incAll db.session.policyCounters (strikes.map (fun s => s.type)))
        "FS_EXIT" := by
      rw [hcnt]
      omega
    have h2 : ¬ 2 ≤ pcGet (incAll db.session.policyCounters (strikes.map (fun s => s.type)))
        "FS_EXIT" := by
      rw [hcnt]
      omega
    unfold applyStrikePolicy
    simp only [hne2, Bool.false_eq_true, if_false, hany, if_true, applyAutoEnd]
    rw [if_neg h3, if_neg (fun hc => h2 hc.1)]
    simp only [applyAutoEnd]
    refine ⟨trivial, trivial, trivial, fun st hst => ?_⟩
    exact List.mem_append.mpr (Or.inr hst)

lemma containsSub_iff {t s : List Char} : containsSub t s = true ↔ t <:+: s := by
  induction s with
  | nil =>
    simp only [containsSub, List.isEmpty_iff]
    constructor
    · intro h
      simp [h]
    · intro h
      simpa using List.eq_nil_of_infix_nil h
  | cons c rest ih =>
    simp only [containsSub, Bool.or_eq_true, ih, List.isPrefixOf_iff_prefix,
      List.infix_cons_iff]

lemma ingest_ok_chainOk {H : String → String} {ls : Int} {lh : String}
    {evs : List ACEventIn} {enr : List StoredEvent}
    (h : ingest H ls lh evs = .ok enr) : chainOk H lh enr := by
  unfold ingest at h
  split at h
  · cases h
    trivial
  · split at h
    · exact absurd h (by simp)
    · exact chainExtend_ok_chainOk h

lemma ingest_ok_proj {H : String → String} {ls : Int} {lh : String}
    {evs : List ACEventIn} {enr : List StoredEvent}
    (h : ingest H ls lh evs = .ok enr) :
    enr.map (fun e => e.toACEventIn) = sortBySeq evs := by
  unfold ingest at h
  split at h
  · rename_i heq
    cases h
    rw [heq]
    rfl
  · rename_i first rest heq
    split at h
    · exact absurd h (by simp)
    · rw [heq]
      exact chainExtend_ok_proj h

lemma anti_cheat_emit_ok_inv {H : String → String} {sid : String} {db db2 : DB}
    {evs : List ACEventIn} {r : Int × String}
    (h : anti_cheat_emit H sid db evs = (db2, .ok r)) :
    (evs = [] ∧ db2 = db) ∨
    ∃ enr, ingest H (tailPair db.events).1 (tailPair db.events).2 evs = .ok enr ∧
      db2 = applyStrikePolicy { db with events := db.events ++ enr }
        ((sortBySeq evs).filterMap fun ev =>
          (_eval_strike ev).map fun s => Strike.mk sid s.type s.severity s.ts s.details) := by
  cases evs with
  | nil =>
    simp only [anti_cheat_emit] at h
    injection h with h1 h2
    exact Or.inl ⟨rfl, h1.symm⟩
  | cons e0 erest =>
    right
    simp only [anti_cheat_emit] at h
    split at h
    · simp at h
    · rename_i enr heq
      split at h
      · injection h with h1 h2
        exact ⟨enr, heq, h1.symm⟩
      · injection h with h1 h2
        exact ⟨enr, heq, h1.symm⟩

/-- C1: for every batch accepted by POST /interview/id/anti-cheat and likewise
for every batch accepted by the precheck ingest, the stored events extend the
log so that the first new event carries the stored tail hash as prevHash (the
empty string when the session has no prior events), every new hash is H
applied to the concatenation of the sessionId, seq, type, ts, the canonical
key-sorted JSON of details, and the running previous hash, and every
subsequent prevHash equals the hash computed for the event before it, where H
stands for the hex SHA-256 digest. -/
theorem anti_cheat_accepted_batch_chain (H : String → String) (sid : String)
    (db : DB) (evs : List ACEventIn) :
    (∀ db2 r, anti_cheat_emit H sid db evs = (db2, .ok r) →
      ∃ enr, db2.events = db.events ++ enr ∧ chainOk H (tailPair db.events).2 enr) ∧
    (∀ w db2 r, submit_precheck H db evs w = (db2, .ok r) →
      ∃ enr, db2.events = db.events ++ enr ∧ chainOk H (tailPair db.events).2 enr) := by
  constructor
  · intro db2 r h
    rcases anti_cheat_emit_ok_inv h with ⟨hnil, rfl⟩ | ⟨enr, hI, rfl⟩
    · exact ⟨[], by simp, trivial⟩
    · refine ⟨enr, ?_, ingest_ok_chainOk hI⟩
      rw [applyStrikePolicy_events]
  · intro w db2 r h
    unfold submit_precheck at h
    split at h
    · simp at h
    · split at h
      · injection h with h1 h2
        refine ⟨[], ?_, trivial⟩
        rw [← h1]
        simp
      · split at h
        · simp at h
        · rename_i enr heq
          injection h with h1 h2
          refine ⟨enr, ?_, ingest_ok_chainOk heq⟩
          rw [← h1]

/-- Witness for C1 at a concrete batch accepted by each of the two routes. -/
theorem anti_cheat_accepted_batch_chain_witness :
    (∃ enr, (anti_cheat_emit exH "S" dbActive [hb1]).1.events = dbActive.events ++ enr ∧
      chainOk exH (tailPair dbActive.events).2 enr) ∧
    (∃ enr, (submit_precheck exH dbPending [hb1] false).1.events = dbPending.events ++ enr ∧
      chainOk exH (tailPair dbPending.events).2 enr) :=
  ⟨(anti_cheat_accepted_batch_chain exH "S" dbActive [hb1]).1
      ((anti_cheat_emit exH "S" dbActive [hb1]).1) (1, exH (hashInput hb1 "")) (by rfl),
   (anti_cheat_accepted_batch_chain exH "S" dbPending [hb1]).2
      false ((submit_precheck exH dbPending [hb1] false).1) ("pass", true) (by rfl)⟩

lemma ingest_replay {H : String → String} {ls : Int} {lh : String} {evs : List ACEventIn}
    {first : ACEventIn} {rest : List ACEventIn}
    (hsort : sortBySeq evs = first :: rest) (hle : first.seq ≤ ls) :
    ingest H ls lh evs = .error ⟨400, "event_seq_replay_or_out_of_order"⟩ := by
  simp only [ingest, hsort]
  rw [if_pos hle]

lemma ingest_chain_broken {H : String → String} {ls : Int} {lh : String}
    {evs : List ACEventIn} {first : ACEventIn} {rest : List ACEventIn}
    (hsort : sortBySeq evs = first :: rest) (hgt : ls < first.seq)
    (hcc : chainCheck H lh (first :: rest) = false) :
    ingest H ls lh evs = .error ⟨400, "event_chain_broken"⟩ := by
  simp only [ingest, hsort]
  rw [if_neg (not_le.mpr hgt)]
  exact chainExtend_error_of_chainCheck_false hcc

lemma anti_cheat_emit_error_of_ingest {H : String → String} {sid : String} {db : DB}
    {e0 : ACEventIn} {erest : List ACEventIn} {err : Err}
    (hI : ingest H (tailPair db.events).1 (tailPair db.events).2 (e0 :: erest)
      = .error err) :
    anti_cheat_emit H sid db (e0 :: erest) = (db, .error err) := by
  simp only [anti_cheat_emit, hI]

/-- C3: a batch whose smallest seq does not exceed the stored tail seq is
rejected with 400 event_seq_replay_or_out_of_order; a batch that passes the seq
check but in which some event does not carry the running chain hash as its
prevHash is rejected with 400 event_chain_broken; in both cases the store is
returned unchanged, so no event is inserted and the tail is untouched; and
re-ingesting any previously accepted non-empty batch fails with
event_seq_replay_or_out_of_order, leaving the log unchanged.  `first` is the
smallest-seq event of the batch, the head after sorting. -/
theorem anti_cheat_replay_and_chain_rejection (H : String → String) (sid : String)
    (db : DB) (evs : List ACEventIn) (first : ACEventIn) (rest : List ACEventIn)
    (hsort : sortBySeq evs = first :: rest) :
    (first.seq ≤ (tailPair db.events).1 →
      anti_cheat_emit H sid db evs = (db, .error ⟨400, "event_seq_replay_or_out_of_order"⟩)) ∧
    ((tailPair db.events).1 < first.seq →
      chainCheck H (tailPair db.events).2 (first :: rest) = false →
      anti_cheat_emit H sid db evs = (db, .error ⟨400, "event_chain_broken"⟩)) ∧
    (∀ db2 r, anti_cheat_emit H sid db evs = (db2, .ok r) →
      anti_cheat_emit H sid db2 evs = (db2, .error ⟨400, "event_seq_replay_or_out_of_order"⟩)) := by
  have hevs : ∃ e0 erest, evs = e0 :: erest := by
    cases evs with
    | nil => simp [sortBySeq] at hsort
    | cons a b => exact ⟨a, b, rfl⟩
  obtain ⟨e0, erest, rfl⟩ := hevs
  refine ⟨?_, ?_, ?_⟩
  · intro hle
    exact anti_cheat_emit_error_of_ingest (ingest_replay hsort hle)
  · intro hgt hcc
    exact anti_cheat_emit_error_of_ingest (ingest_chain_broken hsort hgt hcc)
  · intro db2 r h
    rcases anti_cheat_emit_ok_inv h with ⟨hnil, _⟩ | ⟨enr, hI, hdb2⟩
    · exact absurd hnil (by simp)
    · have hproj := ingest_ok_proj hI
      rw [hsort] at hproj
      cases enr with
      | nil => simp at hproj
      | cons se enr2 =>
        have hse : se.toACEventIn = first := by
          have := List.cons.injEq (se.toACEventIn) (enr2.map (fun e => e.toACEventIn))
            first rest
          rw [show (se :: enr2).map (fun e => e.toACEventIn)
              = se.toACEventIn :: enr2.map (fun e => e.toACEventIn) from rfl] at hproj
          exact (List.cons.inj hproj).1
        have hseq : se.seq = first.seq := by rw [← hse]
        have hev2 : db2.events = db.events ++ (se :: enr2) := by
          rw [hdb2, applyStrikePolicy_events]
        have hmem : se ∈ db2.events := by
          rw [hev2]
          exact List.mem_append.mpr (Or.inr (List.mem_cons_self _ _))
        have hle : first.seq ≤ (tailPair db2.events).1 := by
          rw [← hseq]
          exact tailPair_ge_of_mem hmem
        exact anti_cheat_emit_error_of_ingest (ingest_replay hsort hle)

/-- Witness for C3: replaying a batch whose seq equals the stored tail seq is
rejected and the store is unchanged. -/
theorem anti_cheat_replay_and_chain_rejection_witness :
    anti_cheat_emit exH "S" dbWithTail [hb1]
      = (dbWithTail, .error ⟨400, "event_seq_replay_or_out_of_order"⟩) :=
  (anti_cheat_replay_and_chain_rejection exH "S" dbWithTail [hb1] hb1 [] rfl).1 (by decide)

/-- C4: whenever a batch accepted by POST /interview/id/anti-cheat contains an
event of type SCREENSHOT_ATTEMPT, a red Strike is created and the session is
auto-sealed: state Ended, endCode screenshot_attempt, sealedAt set, one Summary
inserted, and a SESSION_ENDED broadcast carrying the reason emitted to the
room of the session. -/
theorem anti_cheat_screenshot_auto_seal (H : String → String) (sid : String)
    (db : DB) (evs : List ACEventIn) (e : ACEventIn) (db2 : DB) (r : Int × String)
    (hmem : e ∈ evs) (ht : e.type = "SCREENSHOT_ATTEMPT")
    (h : anti_cheat_emit H sid db evs = (db2, .ok r)) :
    db2.session.state = "Ended" ∧
    db2.session.endCode = some "screenshot_attempt" ∧
    db2.session.sealedAtSet = true ∧
    db2.summaries = db.summaries + 1 ∧
    Msg.sessionEnded "screenshot_attempt" ∈ db2.broadcasts ∧
    ∃ s ∈ db2.strikes, s.type = "SCREENSHOT_ATTEMPT" ∧ s.severity = "red" := by
  rcases anti_cheat_emit_ok_inv h with ⟨hnil, _⟩ | ⟨enr, hI, hdb2⟩
  · subst hnil
    cases hmem
  · have hs0 : (Strike.mk sid "SCREENSHOT_ATTEMPT" "red" e.ts e.details) ∈
        ((sortBySeq evs).filterMap fun ev =>
          (_eval_strike ev).map fun s => Strike.mk sid s.type s.severity s.ts s.details) := by
      refine List.mem_filterMap.mpr ⟨e, mem_sortBySeq.mpr hmem, ?_⟩
      simp [_eval_strike, ht]
    have key := applyStrikePolicy_screenshot { db with events := db.events ++ enr }
      ((sortBySeq evs).filterMap fun ev =>
        (_eval_strike ev).map fun s => Strike.mk sid s.type s.severity s.ts s.details)
      (Strike.mk sid "SCREENSHOT_ATTEMPT" "red" e.ts e.details) hs0 rfl rfl
    rw [← hdb2] at key
    obtain ⟨k1, k2, k3, k4, k5, k6⟩ := key
    exact ⟨k1, k2, k3, by simpa using k4, k5, ⟨_, k6, rfl, rfl⟩⟩

/-- Witness for C4 at a concrete screenshot event. -/
theorem anti_cheat_screenshot_auto_seal_witness :
    (anti_cheat_emit exH "S" dbActive [shot1]).1.session.state = "Ended" ∧
    (anti_cheat_emit exH "S" dbActive [shot1]).1.session.endCode = some "screenshot_attempt" ∧
    (anti_cheat_emit exH "S" dbActive [shot1]).1.summaries = dbActive.summaries + 1 := by
  obtain ⟨k1, k2, k3, k4, k5, k6⟩ :=
    anti_cheat_screenshot_auto_seal exH "S" dbActive [shot1] shot1
      ((anti_cheat_emit exH "S" dbActive [shot1]).1) (1, exH (hashInput shot1 ""))
      (List.mem_cons_self _ _) rfl (by rfl)
  exact ⟨k1, k2, k4⟩

lemma _eval_strike_type {ev : ACEventIn} {info : StrikeInfo}
    (h : _eval_strike ev = some info) : info.type = ev.type := by
  unfold _eval_strike at h
  split_ifs at h <;> cases h <;> rfl

/-- C6 counterexample: a correctly chained batch of three FACE_MISSING events,
each with duration 5s, is accepted, produces three red FACE_MISSING strikes,
and yet leaves the session Active with no endCode: the source checks no
FACE_MISSING threshold, so the session is not auto-sealed as the claim
requires. -/
theorem face_missing_three_red_not_sealed :
    (anti_cheat_emit exH "S" dbActive [fm1, fm2, fm3]).1.session.state = "Active" ∧
    (anti_cheat_emit exH "S" dbActive [fm1, fm2, fm3]).1.session.endCode = none ∧
    ((anti_cheat_emit exH "S" dbActive [fm1, fm2, fm3]).1.strikes.filter
      (fun s => s.type == "FACE_MISSING" && s.severity == "red")).length = 3 ∧
    (anti_cheat_emit exH "S" dbActive [fm1, fm2, fm3]).2
      = .ok (3, exH (hashInput fm3 fm3.prevHash)) :=
  ⟨rfl, rfl, rfl, rfl⟩

/-- C6 amended: FACE_MISSING events of an accepted batch yield strikes that are
red when the duration exceeds 2 seconds (a missing or invalid duration counts
as 0 and yields yellow), but no count of red FACE_MISSING strikes auto-seals
the session: absent pre-existing FS_EXIT counters of 2 or more, a batch of
FACE_MISSING events leaves the session state, endCode and summaries
unchanged. -/
theorem face_missing_batch_never_seals (H : String → String) (sid : String)
    (db : DB) (evs : List ACEventIn) (db2 : DB) (r : Int × String)
    (hall : ∀ e ∈ evs, e.type = "FACE_MISSING")
    (hfs : pcGet db.session.policyCounters "FS_EXIT" < 2)
    (h : anti_cheat_emit H sid db evs = (db2, .ok r)) :
    db2.session.state = db.session.state ∧
    db2.session.endCode = db.session.endCode ∧
    db2.summaries = db.summaries ∧
    ∀ e ∈ evs, 2 < faceMissingDuration e.details →
      Strike.mk sid "FACE_MISSING" "red" e.ts e.details ∈ db2.strikes := by
  rcases anti_cheat_emit_ok_inv h with ⟨hnil, hdb⟩ | ⟨enr, hI, hdb2⟩
  · subst hnil
    subst hdb
    exact ⟨rfl, rfl, rfl, fun e hmem _ => absurd hmem (List.not_mem_nil e)⟩
  · have hallS : ∀ st ∈ ((sortBySeq evs).filterMap fun ev =>
        (_eval_strike ev).map fun s => Strike.mk sid s.type s.severity s.ts s.details),
        st.type = "FACE_MISSING" := by
      intro st hst
      obtain ⟨ev, hev, hmap⟩ := List.mem_filterMap.mp hst
      have hty := hall ev (mem_sortBySeq.mp hev)
      cases hE : _eval_strike ev with
      | none => rw [hE] at hmap; simp at hmap
      | some info =>
        rw [hE] at hmap
        simp only [Option.map_some'] at hmap
        obtain rfl : (Strike.mk sid info.type info.severity info.ts info.details) = st :=
          Option.some.inj hmap
        rw [show (Strike.mk sid info.type info.severity info.ts info.details).type
          = info.type from rfl, _eval_strike_type hE]
        exact hty
    have key := applyStrikePolicy_no_trigger { db with events := db.events ++ enr }
      ((sortBySeq evs).filterMap fun ev =>
        (_eval_strike ev).map fun s => Strike.mk sid s.type s.severity s.ts s.details)
      hallS hfs
    rw [← hdb2] at key
    refine ⟨key.1, key.2.1, by simpa using key.2.2.1, ?_⟩
    intro e hmem hdur
    have hty := hall e hmem
    have hE : _eval_strike e = some ⟨"FACE_MISSING", "red", e.ts, e.details⟩ := by
      unfold _eval_strike
      rw [hty]
      simp [not_le.mpr hdur]
    refine key.2.2.2 _ (List.mem_filterMap.mpr ⟨e, mem_sortBySeq.mpr hmem, ?_⟩)
    rw [hE]
    rfl

/-- Witness for C6 amended at the concrete FACE_MISSING batch. -/
theorem face_missing_batch_never_seals_witness :
    (anti_cheat_emit exH "S" dbActive [fm1, fm2, fm3]).1.session.state
      = dbActive.session.state ∧
    (anti_cheat_emit exH "S" dbActive [fm1, fm2, fm3]).1.summaries = dbActive.summaries := by
  obtain ⟨k1, k2, k3, k4⟩ := face_missing_batch_never_seals exH "S" dbActive [fm1, fm2, fm3]
    ((anti_cheat_emit exH "S" dbActive [fm1, fm2, fm3]).1)
    (3, exH (hashInput fm3 fm3.prevHash)) (by decide) (by decide) (by rfl)
  exact ⟨k1, k3⟩

/-- C2 (code bug): `finalize` checks no session state, so a session already in
the terminal state Ended accepts the mutating finalize call: a second Summary
is inserted and the state is rewritten to Completed, instead of the 409
rejection the claim requires. -/
theorem finalize_terminal_not_rejected :
    (finalize dbEnded "sum2").2 = .ok ("sum2", "Completed") ∧
    (finalize dbEnded "sum2").1.summaries = dbEnded.summaries + 1 ∧
    (finalize dbEnded "sum2").1.session.state = "Completed" :=
  ⟨rfl, rfl, rfl⟩

/-- C5 (code bug): calling `finalize` twice on the same session inserts two
Summary records, violating the at-most-one-Summary invariant: the handler has
no state precondition and always inserts. -/
theorem finalize_twice_two_summaries :
    (finalize (finalize dbActive "s1").1 "s2").1.summaries = 2 ∧
    (finalize dbActive "s1").2 = .ok ("s1", "Completed") ∧
    (finalize (finalize dbActive "s1").1 "s2").2 = .ok ("s2", "Completed") :=
  ⟨rfl, rfl, rfl⟩

/-- C7 counterexample: an AIPT whose sessionId claim is A, presented at the
next-question endpoint of a different existing Active session B, is accepted
and a question is created for B; the claim requires a 403 from a comparison of
the claim with the path, but no such comparison exists in the handler. -/
theorem next_question_cross_session_token_accepted :
    (next_question aiptForA dbSessionB 100 genQ "qB").2
      = .ok ⟨"qB", 1, 2, "behavioral", "Describe a conflict you resolved.", Json.null⟩ :=
  rfl

/-- C7 amended: the outcome of next-question does not depend on the sessionId
claim of the AIPT at all: only the audience ai-proxy and the global scope
ai:ask are validated, so a token minted for session A behaves at session B
exactly like a token minted for B. -/
theorem next_question_ignores_token_session (aud : String) (scope : List String)
    (sidA sidB : String) (db : DB) (now : Int) (gen : GenQuestion) (qid : String) :
    next_question ⟨aud, scope, sidA⟩ db now gen qid
      = next_question ⟨aud, scope, sidB⟩ db now gen qid := by
  by_cases h1 : aud = "ai-proxy" <;> by_cases h2 : "ai:ask" ∈ scope <;>
    simp [next_question, auth_ai_proxy, require_scope, h1, h2]

/-- C8 (code bug): with lastAskedAt 2 seconds in the past the rate-limit block
of next-question computes the 429 rate_limited error, but the source raises
it inside `try ... except Exception: pass`, which swallows the HTTPException:
the request succeeds and a new question is inserted instead of failing. -/
theorem rate_limited_next_question_succeeds :
    rate_limit_block (some 98) 100 = .error ⟨429, "rate_limited"⟩ ∧
    (next_question aiptForS dbRecentAsk 100 genQ "q1").2
      = .ok ⟨"q1", 1, 1, "behavioral", "Describe a conflict you resolved.", Json.null⟩ ∧
    (next_question aiptForS dbRecentAsk 100 genQ "q1").1.questions.length
      = dbRecentAsk.questions.length + 1 :=
  ⟨rfl, rfl, rfl⟩

/-- C9: code-eval rejects a submission with 400 disallowed_code, running no
test case, exactly when the lowered code contains one of the banned
substrings; code containing none of them passes the pre-screen and every test
is run. -/
theorem code_eval_prescreen_characterization (runTest : TestCase → TestResult)
    (code : String) (fname : String) (tests : List TestCase) :
    ((∃ t ∈ bannedTokens, t.toList <:+: (strLower code).toList) →
      code_eval runTest code fname tests = .error ⟨400, "disallowed_code"⟩) ∧
    ((¬ ∃ t ∈ bannedTokens, t.toList <:+: (strLower code).toList) →
      code_eval runTest code fname tests
        = .ok ⟨tests.map runTest, ((tests.map runTest).filter (fun r => r.pass)).length,
               tests.length⟩) := by
  constructor
  · intro hex
    obtain ⟨t, htmem, hinf⟩ := hex
    have hc : containsSub t.toList (strLower code).toList = true := containsSub_iff.mpr hinf
    unfold code_eval prescreen
    cases hf : bannedTokens.find? (fun u => containsSub u.toList (strLower code).toList) with
    | none =>
      exfalso
      have := List.find?_eq_none.mp hf t htmem
      rw [hc] at this
      exact this rfl
    | some u => rfl
  · intro hno
    unfold code_eval prescreen
    cases hf : bannedTokens.find? (fun u => containsSub u.toList (strLower code).toList) with
    | some u =>
      exfalso
      have hmem := List.mem_of_find?_eq_some hf
      have hp := List.find?_some hf
      exact hno ⟨u, hmem, containsSub_iff.mp hp⟩
    | none => rfl

/-- Witness for C9: code containing import is rejected with disallowed_code;
clean code passes the pre-screen. -/
theorem code_eval_prescreen_witness :
    code_eval (fun _ => ⟨true, none⟩) "import os" "f" [] = .error ⟨400, "disallowed_code"⟩ ∧
    code_eval (fun _ => ⟨true, none⟩) "x = 1" "f" [] = .ok ⟨[], 0, 0⟩ := by
  constructor
  · exact (code_eval_prescreen_characterization (fun _ => ⟨true, none⟩) "import os" "f" []).1
      ⟨"import ", by decide, containsSub_iff.mp (by rfl)⟩
  · refine (code_eval_prescreen_characterization (fun _ => ⟨true, none⟩) "x = 1" "f" []).2 ?_
    intro hex
    obtain ⟨t, htmem, hinf⟩ := hex
    have hc := containsSub_iff.mpr hinf
    fin_cases htmem <;> exact absurd hc (by decide)

/-- C10: submit-answer does not require the referenced question to exist: on an
Active session, a questionId matching no Question still succeeds: the Answer is
inserted, awaitingAnswer is cleared, and the response is status submitted with
null immediateFeedback. -/
theorem submit_answer_unknown_question (db : DB) (req : SubmitAnswerReq)
    (analyze : QuestionDoc → Option String)
    (hstate : db.session.state = "Active")
    (hnoq : ∀ q ∈ db.questions, q.id ≠ req.questionId) :
    submit_answer db req analyze
      = ({ db with
           answers := db.answers ++ [⟨req.questionId, req.answerType, req.responseText, none⟩]
           session := { db.session with awaitingAnswer := false } },
         .ok ⟨"submitted", none⟩) := by
  have hfind : db.questions.find? (fun q => q.id == req.questionId) = none := by
    rw [List.find?_eq_none]
    intro q hq
    simp [hnoq q hq]
  unfold submit_answer
  rw [if_neg (fun hc => hc hstate), hfind]

/-- Witness for C10 at a concrete store holding only question q1. -/
theorem submit_answer_unknown_question_witness :
    submit_answer dbWithQ reqUnknownQ (fun _ => some "fb")
      = ({ dbWithQ with
           answers := dbWithQ.answers ++
             [⟨reqUnknownQ.questionId, reqUnknownQ.answerType, reqUnknownQ.responseText, none⟩]
           session := { dbWithQ.session with awaitingAnswer := false } },
         .ok ⟨"submitted", none⟩) :=
  submit_answer_unknown_question dbWithQ reqUnknownQ (fun _ => some "fb") rfl (by decide)
